import Mathlib

set_option maxHeartbeats 1000000

namespace Rxddit

/-!
Shallow embedding of the rxddit-discord-bot repository.

Part 1: the link transformer (src/linkUtils.ts).  The source works with two
frozen JavaScript regular expressions, both with flags `g` and `i`:

  REDDIT_PATTERNS = [
    /https?:\/\/(www\.)?reddit\.com\/r\/[^\s]+/gi,
    /https?:\/\/(old|new)\.reddit\.com\/r\/[^\s]+/gi ]

Every pattern is a case-insensitive literal (with finitely many alternatives
coming from `https?`, `(www\.)?` and `(old|new)`) followed, for the detection
patterns, by the greedy class `[^\s]+`.  We embed a pattern as the list of its
literal alternatives in the engine's backtracking priority order, matched
case-insensitively, and for detection followed by a greedy run of
non-whitespace characters.  Texts are `List Char`.
-/

/-- ASCII lower-casing, the case folding relevant to the `i` flag for these
all-ASCII patterns (a non-ASCII character never canonicalizes onto an ASCII
letter for a regex without the `u` flag). -/
def lowerChar (c : Char) : Char :=
  if 'A' ≤ c ∧ c ≤ 'Z' then Char.ofNat (c.toNat + 32) else c

/-- The JavaScript `\s` class: ASCII whitespace, NBSP, the Unicode space
separators, line/paragraph separators and the BOM. -/
def isJsSpace (c : Char) : Bool :=
  let n := c.toNat
  n == 9 || n == 10 || n == 11 || n == 12 || n == 13 || n == 32 || n == 160 ||
  n == 0x1680 || (decide (0x2000 ≤ n) && decide (n ≤ 0x200A)) ||
  n == 0x2028 || n == 0x2029 || n == 0x202F || n == 0x205F || n == 0x3000 ||
  n == 0xFEFF

/-- Match the literal `p` case-insensitively at the start of `s`; on success
return the consumed slice of `s` (original case) and the remainder. -/
def stripCI : List Char → List Char → Option (List Char × List Char)
  | [], s => some ([], s)
  | _ :: _, [] => none
  | p :: ps, c :: cs =>
    if lowerChar p = lowerChar c then
      match stripCI ps cs with
      | some (m, r) => some (c :: m, r)
      | none => none
    else none

/-- One detection alternative: the literal `p` followed by the greedy
`[^\s]+`. -/
def tryDet (p s : List Char) : Option (List Char × List Char) :=
  match stripCI p s with
  | some (m, r) =>
    let t := r.takeWhile (fun c => !isJsSpace c)
    if t.isEmpty then none
    else some (m ++ t, r.dropWhile (fun c => !isJsSpace c))
  | none => none

/-- One conversion alternative: just the literal `p` (the conversion patterns
in `convertToRxddit` end at the host, with no path requirement). -/
def tryConv (p s : List Char) : Option (List Char × List Char) :=
  stripCI p s

/-- Try the alternatives in backtracking priority order; first success wins,
exactly as the regex engine does at a given input position. -/
def firstHit (f : List Char → List Char → Option (List Char × List Char)) :
    List (List Char) → List Char → Option (List Char × List Char)
  | [], _ => none
  | p :: ps, s =>
    match f p s with
    | some x => some x
    | none => firstHit f ps s

/-- Alternatives of `https?:\/\/(www\.)?reddit\.com\/r\/` in priority order
(`https?` and `(www\.)?` are both greedy). -/
def det1Pats : List (List Char) :=
  ["https://www.reddit.com/r/".toList, "https://reddit.com/r/".toList,
   "http://www.reddit.com/r/".toList, "http://reddit.com/r/".toList]

/-- Alternatives of `https?:\/\/(old|new)\.reddit\.com\/r\/` in priority
order. -/
def det2Pats : List (List Char) :=
  ["https://old.reddit.com/r/".toList, "https://new.reddit.com/r/".toList,
   "http://old.reddit.com/r/".toList, "http://new.reddit.com/r/".toList]

/-- Alternatives of `https?:\/\/(www\.)?reddit\.com` (first `.replace` in
`convertToRxddit`). -/
def conv1Pats : List (List Char) :=
  ["https://www.reddit.com".toList, "https://reddit.com".toList,
   "http://www.reddit.com".toList, "http://reddit.com".toList]

/-- Alternatives of `https?:\/\/(old|new)\.reddit\.com` (second `.replace` in
`convertToRxddit`). -/
def conv2Pats : List (List Char) :=
  ["https://old.reddit.com".toList, "https://new.reddit.com".toList,
   "http://old.reddit.com".toList, "http://new.reddit.com".toList]

/-- First detection pattern, applied at one input position. -/
def det1At (s : List Char) : Option (List Char × List Char) :=
  firstHit tryDet det1Pats s

/-- Second detection pattern, applied at one input position. -/
def det2At (s : List Char) : Option (List Char × List Char) :=
  firstHit tryDet det2Pats s

/-- First conversion pattern, applied at one input position. -/
def conv1At (s : List Char) : Option (List Char × List Char) :=
  firstHit tryConv conv1Pats s

/-- Second conversion pattern, applied at one input position. -/
def conv2At (s : List Char) : Option (List Char × List Char) :=
  firstHit tryConv conv2Pats s

/-- Global scan of a pattern over a text, exactly as `String.prototype.match`
with a `g` regex: find the leftmost match, emit it, continue right after it
(matches never overlap); on failure advance one character.  The starting
offset of each match is recorded alongside the matched slice.  The fuel is one
unit per examined character, so `s.length` is always enough. -/
def scanFuel (m : List Char → Option (List Char × List Char)) :
    Nat → Nat → List Char → List (Nat × List Char)
  | 0, _, _ => []
  | _ + 1, _, [] => []
  | fuel + 1, pos, c :: rest =>
    match m (c :: rest) with
    | some (mt, r) => (pos, mt) :: scanFuel m fuel (pos + mt.length) r
    | none => scanFuel m fuel (pos + 1) rest

/-- All matches of `m` in `s`, with starting offsets. -/
def scanPos (m : List Char → Option (List Char × List Char)) (s : List Char) :
    List (Nat × List Char) :=
  scanFuel m s.length 0 s

/-- All matches of `m` in `s`, in scan order — the value of
`content.match(pattern)` for a global pattern. -/
def scanMatches (m : List Char → Option (List Char × List Char))
    (s : List Char) : List (List Char) :=
  (scanPos m s).map Prod.snd

/-- Global replacement, exactly as `String.prototype.replace` with a `g`
regex and a replacer function: every match is replaced by `f` applied to the
matched slice, unmatched characters are copied through. -/
def replaceFuel (m : List Char → Option (List Char × List Char))
    (f : List Char → List Char) : Nat → List Char → List Char
  | 0, s => s
  | _ + 1, [] => []
  | fuel + 1, c :: rest =>
    match m (c :: rest) with
    | some (mt, r) => f mt ++ replaceFuel m f fuel r
    | none => c :: replaceFuel m f fuel rest

/-- Replace every match of `m` in `s` by `f` of the match. -/
def replaceAll (m : List Char → Option (List Char × List Char))
    (f : List Char → List Char) (s : List Char) : List Char :=
  replaceFuel m f s.length s

/-- `[...new Set(links)]`: deduplication keeping the first occurrence, in
insertion order. -/
def dedupSeen (seen : List (List Char)) : List (List Char) → List (List Char)
  | [] => []
  | x :: xs => if x ∈ seen then dedupSeen seen xs else x :: dedupSeen (x :: seen) xs

/-- Deduplicate keeping first occurrences (JavaScript `Set` iteration
order). -/
def dedupKeepFirst (l : List (List Char)) : List (List Char) :=
  dedupSeen [] l

/-- `detectRedditLinks` (src/linkUtils.ts:21-33): collect all matches of the
first pattern, then all matches of the second pattern, then deduplicate. -/
def detectRedditLinks (content : List Char) : List (List Char) :=
  dedupKeepFirst (scanMatches det1At content ++ scanMatches det2At content)

/-- The fixed replacement text `https://rxddit.com` of both `.replace` calls
in `convertToRxddit`. -/
def rxHost : List Char := "https://rxddit.com".toList

/-- `convertToRxddit` (src/linkUtils.ts:40-44): replace every occurrence of
the first host pattern, then every occurrence of the second host pattern, by
the literal `https://rxddit.com`. -/
def convertToRxddit (url : List Char) : List Char :=
  replaceAll conv2At (fun _ => rxHost) (replaceAll conv1At (fun _ => rxHost) url)

/-- `convertMessageLinks` (src/linkUtils.ts:51-59): for each detection
pattern in order, replace every match by its `convertToRxddit` image. -/
def convertMessageLinks (content : List Char) : List Char :=
  replaceAll det2At convertToRxddit (replaceAll det1At convertToRxddit content)

/-!
Part 2: the conversation ledger (src/database.ts, `MessageDatabase`), a
SQLite store accessed through better-sqlite3.  Semantic facts of the backing
engine that the embedding relies on:

* `UPDATE` reports, through `result.changes`, the number of rows matched by
  its `WHERE` clause — a row counts as changed even when the stored value is
  already the value being written (SQLite's `sqlite3_changes` semantics).
* better-sqlite3 compiles SQLite with `SQLITE_DEFAULT_FOREIGN_KEYS=1`, so the
  `FOREIGN KEY (message_id) REFERENCES messages(message_id)` clause on the
  `reactions` table is enforced: inserting a reaction whose `message_id` has
  no row in `messages` fails with a foreign-key constraint error, and a plain
  `DELETE` of a message still referenced by reactions fails likewise.
  `INSERT OR REPLACE` on `messages` keyed by the same `message_id` satisfies
  the constraint (the key persists across the replace).
* `AUTOINCREMENT` identifiers start at 1 and are never reused.

Fallible operations return `Option` (`none` = the statement throws).
-/

/-- A row of the `messages` table (interface `StoredMessage`). -/
structure StoredMessage where
  messageId : String
  channelId : String
  guildId : String
  authorId : String
  authorTag : String
  originalContent : String
  convertedContent : String
  originalLinks : String
  convertedLinks : String
  botMessageId : String
  createdAt : Int
  isReverted : Bool
  deriving DecidableEq, Repr

/-- The input of `storeMessage` (`Omit<StoredMessage, 'isReverted'>`). -/
structure StoredMessageInput where
  messageId : String
  channelId : String
  guildId : String
  authorId : String
  authorTag : String
  originalContent : String
  convertedContent : String
  originalLinks : String
  convertedLinks : String
  botMessageId : String
  createdAt : Int
  deriving DecidableEq, Repr

/-- The row inserted for an input: all given fields plus `is_reverted = 0`. -/
def StoredMessageInput.toStored (i : StoredMessageInput) : StoredMessage :=
  { messageId := i.messageId, channelId := i.channelId, guildId := i.guildId,
    authorId := i.authorId, authorTag := i.authorTag,
    originalContent := i.originalContent,
    convertedContent := i.convertedContent,
    originalLinks := i.originalLinks, convertedLinks := i.convertedLinks,
    botMessageId := i.botMessageId, createdAt := i.createdAt,
    isReverted := false }

/-- A row of the `reactions` table (interface `StoredReaction`).  The source
interface really does name the reactor-identity field `odId` — see claim C8. -/
structure StoredReaction where
  id : Nat
  messageId : String
  odId : String
  userTag : String
  emoji : String
  reactedAt : Int
  isRevertReaction : Bool
  deriving DecidableEq, Repr

/-- The input of `storeReaction` (`Omit<StoredReaction, 'id'>`). -/
structure ReactionInput where
  messageId : String
  odId : String
  userTag : String
  emoji : String
  reactedAt : Int
  isRevertReaction : Bool
  deriving DecidableEq, Repr

/-- The row inserted for an input once the ledger assigns it the identifier
`n`. -/
def ReactionInput.withId (r : ReactionInput) (n : Nat) : StoredReaction :=
  { id := n, messageId := r.messageId, odId := r.odId, userTag := r.userTag,
    emoji := r.emoji, reactedAt := r.reactedAt,
    isRevertReaction := r.isRevertReaction }

/-- The persistent state of `MessageDatabase`: the two relations plus the
`AUTOINCREMENT` counter of `reactions.id`. -/
structure MessageDatabase where
  messages : List StoredMessage
  reactions : List StoredReaction
  nextReactionId : Nat
  deriving Repr

/-- A freshly initialized database: both tables empty, first reaction id 1. -/
def emptyDb : MessageDatabase :=
  { messages := [], reactions := [], nextReactionId := 1 }

/-- `storeMessage` (database.ts:918-940): `INSERT OR REPLACE INTO messages
(... , is_reverted) VALUES (..., 0)` keyed on the primary key `message_id` —
any existing row with the same key is replaced and `is_reverted` is written
as 0. -/
def storeMessage (i : StoredMessageInput) (db : MessageDatabase) :
    MessageDatabase :=
  { db with
    messages := db.messages.filter (fun m => !(m.messageId == i.messageId))
      ++ [i.toStored] }

/-- `getMessage` (database.ts:943-966): `SELECT ... FROM messages WHERE
message_id = ?` on the primary key. -/
def getMessage (messageId : String) (db : MessageDatabase) :
    Option StoredMessage :=
  db.messages.find? (fun m => m.messageId == messageId)

/-- `hasMessage` (database.ts:1119-1122). -/
def hasMessage (messageId : String) (db : MessageDatabase) : Bool :=
  db.messages.any (fun m => m.messageId == messageId)

/-- `markAsReverted` (database.ts:969-975): `UPDATE messages SET
is_reverted = 1 WHERE message_id = ?`, returning `changes > 0`.  Note the
`WHERE` clause tests only the key — there is no `AND is_reverted = 0` guard,
and SQLite counts a matched row as changed even when `is_reverted` is already
1. -/
def markAsReverted (messageId : String) (db : MessageDatabase) :
    Bool × MessageDatabase :=
  (db.messages.any (fun m => m.messageId == messageId),
   { db with
     messages := db.messages.map (fun m =>
       if m.messageId == messageId then { m with isReverted := true } else m) })

/-- `deleteMessage` (database.ts:978-982): `DELETE FROM messages WHERE
message_id = ?`, returning `changes > 0`.  With foreign keys enforced the
statement throws when the deleted row is still referenced by reactions. -/
def deleteMessage (messageId : String) (db : MessageDatabase) :
    Option (Bool × MessageDatabase) :=
  if db.messages.any (fun m => m.messageId == messageId)
      && db.reactions.any (fun r => r.messageId == messageId) then
    none
  else
    some (db.messages.any (fun m => m.messageId == messageId),
      { db with
        messages := db.messages.filter (fun m => !(m.messageId == messageId)) })

/-- `storeReaction` (database.ts:985-1002): `INSERT INTO reactions (...)`,
returning `lastInsertRowid`.  With foreign keys enforced the insert fails
when no message row carries the referenced `message_id`; otherwise it appends
one row and never touches existing rows. -/
def storeReaction (r : ReactionInput) (db : MessageDatabase) :
    Option (Nat × MessageDatabase) :=
  if db.messages.any (fun m => m.messageId == r.messageId) then
    some (db.nextReactionId,
      { db with
        reactions := db.reactions ++ [r.withId db.nextReactionId],
        nextReactionId := db.nextReactionId + 1 })
  else
    none

/-- Stable insertion of a reaction into a list sorted by `reactedAt`
ascending: the new row goes after existing rows with a key less than or equal
to its own. -/
def insertByTime (r : StoredReaction) : List StoredReaction → List StoredReaction
  | [] => [r]
  | x :: xs =>
    if x.reactedAt ≤ r.reactedAt then x :: insertByTime r xs else r :: x :: xs

/-- Stable sort by `reactedAt` ascending (`ORDER BY reacted_at ASC`). -/
def sortByTime : List StoredReaction → List StoredReaction
  | [] => []
  | x :: xs => insertByTime x (sortByTime xs)

/-- `getReactions` (database.ts:1005-1024): `SELECT ... FROM reactions WHERE
message_id = ? ORDER BY reacted_at ASC`. -/
def getReactions (messageId : String) (db : MessageDatabase) :
    List StoredReaction :=
  sortByTime (db.reactions.filter (fun r => r.messageId == messageId))

/-- `cleanupOldMessages` (database.ts:1085-1103): with
`cutoffTime = Date.now() - daysOld*24*60*60*1000` (the wall clock enters as
the explicit parameter `now`), first `DELETE FROM reactions WHERE message_id
IN (SELECT message_id FROM messages WHERE created_at < cutoff)`, then
`DELETE FROM messages WHERE created_at < cutoff`; the count of deleted
message rows is returned. -/
def cleanupOldMessages (daysOld : Nat) (now : Int) (db : MessageDatabase) :
    Nat × MessageDatabase :=
  let cutoff : Int := now - (daysOld : Int) * 86400000
  let oldIds := (db.messages.filter (fun m => decide (m.createdAt < cutoff))).map
    (fun m => m.messageId)
  ((db.messages.filter (fun m => decide (m.createdAt < cutoff))).length,
   { db with
     messages := db.messages.filter (fun m => !decide (m.createdAt < cutoff)),
     reactions := db.reactions.filter (fun r => !(oldIds.contains r.messageId)) })

/-- The result of `getStats`. -/
structure Stats where
  totalMessages : Nat
  totalReactions : Nat
  revertedCount : Nat
  deriving DecidableEq, Repr

/-- `getStats` (database.ts:1106-1116): three `COUNT(*)` queries. -/
def getStats (db : MessageDatabase) : Stats :=
  { totalMessages := db.messages.length,
    totalReactions := db.reactions.length,
    revertedCount := (db.messages.filter (fun m => m.isReverted)).length }

/-- Modelled from the spec: `getConversionByReplacementId(replacementMessageId)
-> ConversionRecord | absent` (spec §4.2), the secondary lookup on the
replacement-message identity over the `conversions` relation (spec §6).  The
method `getMessageByBotMessageId` is called by the reaction handler in
src/src/bot.ts (third revision, `db.getMessageByBotMessageId(botMessageId)`)
but its declaration is missing from the `MessageDatabase` class included
under src/. -/
def getMessageByBotMessageId (botMessageId : String) (db : MessageDatabase) :
    Option StoredMessage :=
  db.messages.find? (fun m => m.botMessageId == botMessageId)

/-- Integrity of a database state as SQLite maintains it: the primary key on
`messages.message_id` and the enforced foreign key from `reactions` to
`messages`. -/
def WellFormed (db : MessageDatabase) : Prop :=
  (db.messages.map (fun m => m.messageId)).Nodup ∧
  ∀ r ∈ db.reactions, ∃ m ∈ db.messages, m.messageId = r.messageId

instance (db : MessageDatabase) : Decidable (WellFormed db) := by
  unfold WellFormed; infer_instance

/-!
Part 3: properties of the matching engine.
-/

/-- Case-insensitive comparison of `stripCI` only inspects characters through
`lowerChar`, so lists with the same lower image behave the same. -/
theorem stripCI_sound {p s m r : List Char} (h : stripCI p s = some (m, r)) :
    s = m ++ r ∧ m.map lowerChar = p.map lowerChar := by
  induction p generalizing s m r with
  | nil =>
    simp only [stripCI, Option.some.injEq, Prod.mk.injEq] at h
    simp [← h.1, ← h.2]
  | cons p0 ps ih =>
    cases s with
    | nil => simp [stripCI] at h
    | cons c cs =>
      simp only [stripCI] at h
      split at h
      · rename_i heq
        cases hrec : stripCI ps cs with
        | none => rw [hrec] at h; simp at h
        | some pr =>
          obtain ⟨m', r'⟩ := pr
          rw [hrec] at h
          simp only [Option.some.injEq, Prod.mk.injEq] at h
          obtain ⟨hm, hr⟩ := h
          obtain ⟨hs, hmap⟩ := ih hrec
          subst hm hr
          constructor
          · simp [hs]
          · simp [hmap, heq]
      · simp at h

/-- Detecting a mismatch of `p` against `a` strictly inside `a`. -/
def stripFails : List Char → List Char → Bool
  | [], _ => false
  | _ :: _, [] => false
  | p :: ps, c :: cs =>
    if lowerChar p = lowerChar c then stripFails ps cs else true

/-- A mismatch inside `a` makes `stripCI` fail on any extension of `a`. -/
theorem stripCI_none_of_fails {p a : List Char} (h : stripFails p a = true)
    (b : List Char) : stripCI p (a ++ b) = none := by
  induction p generalizing a with
  | nil => simp [stripFails] at h
  | cons p0 ps ih =>
    cases a with
    | nil => simp [stripFails] at h
    | cons c cs =>
      simp only [stripFails] at h
      simp only [List.cons_append, stripCI]
      split at h
      · rename_i heq
        rw [if_pos heq]
        simp only [List.append_eq, ih h]
      · rename_i heq
        rw [if_neg heq]

/-- `stripFails` only inspects its second argument through `lowerChar`. -/
theorem stripFails_congr {a b : List Char} (p : List Char)
    (h : a.map lowerChar = b.map lowerChar) : stripFails p a = stripFails p b := by
  induction p generalizing a b with
  | nil => simp [stripFails]
  | cons p0 ps ih =>
    cases a with
    | nil =>
      cases b with
      | nil => rfl
      | cons b0 bs => simp at h
    | cons a0 as =>
      cases b with
      | nil => simp at h
      | cons b0 bs =>
        simp only [List.map_cons, List.cons.injEq] at h
        simp only [stripFails, h.1, ih h.2]

/-- When `a` is a case variant of the literal `p`, `stripCI` consumes exactly
`a` from any extension. -/
theorem stripCI_of_map_eq {p a : List Char}
    (h : a.map lowerChar = p.map lowerChar) (b : List Char) :
    stripCI p (a ++ b) = some (a, b) := by
  induction p generalizing a with
  | nil =>
    cases a with
    | nil => rfl
    | cons a0 as => simp at h
  | cons p0 ps ih =>
    cases a with
    | nil => simp at h
    | cons a0 as =>
      simp only [List.map_cons, List.cons.injEq] at h
      simp only [List.cons_append, stripCI, if_pos h.1.symm, List.append_eq,
        ih h.2]

/-- Soundness of a detection alternative: the match is the consumed slice,
one character longer than the literal at least. -/
theorem tryDet_sound {p s mt r : List Char} (h : tryDet p s = some (mt, r)) :
    s = mt ++ r ∧ mt ≠ [] := by
  unfold tryDet at h
  cases hs : stripCI p s with
  | none => rw [hs] at h; simp at h
  | some pr =>
    obtain ⟨m, r0⟩ := pr
    rw [hs] at h
    simp only at h
    split at h
    · simp at h
    · rename_i hne
      simp only [Option.some.injEq, Prod.mk.injEq] at h
      obtain ⟨hmt, hr⟩ := h
      obtain ⟨hsplit, _⟩ := stripCI_sound hs
      subst hmt hr
      constructor
      · rw [hsplit, List.append_assoc, List.takeWhile_append_dropWhile]
      · intro hcon
        rcases List.append_eq_nil.mp hcon with ⟨_, ht⟩
        rw [ht] at hne
        simp at hne

/-- Soundness of a conversion alternative. -/
theorem tryConv_sound {p s mt r : List Char} (hp : p ≠ [])
    (h : tryConv p s = some (mt, r)) : s = mt ++ r ∧ mt ≠ [] := by
  obtain ⟨hsplit, hmap⟩ := stripCI_sound h
  refine ⟨hsplit, ?_⟩
  intro hcon
  subst hcon
  cases p with
  | nil => exact hp rfl
  | cons p0 ps => simp at hmap

/-- Soundness lifts through the alternative list. -/
theorem firstHit_sound {f : List Char → List Char → Option (List Char × List Char)}
    {pats : List (List Char)} {s mt r : List Char}
    (hf : ∀ p ∈ pats, ∀ mt r, f p s = some (mt, r) → s = mt ++ r ∧ mt ≠ [])
    (h : firstHit f pats s = some (mt, r)) : s = mt ++ r ∧ mt ≠ [] := by
  induction pats with
  | nil => simp [firstHit] at h
  | cons p ps ih =>
    simp only [firstHit] at h
    cases hp : f p s with
    | some x =>
      obtain ⟨x1, x2⟩ := x
      rw [hp] at h
      simp only [Option.some.injEq, Prod.mk.injEq] at h
      have hres := hf p (by simp) x1 x2 hp
      rw [← h.1, ← h.2]
      exact hres
    | none =>
      rw [hp] at h
      exact ih (fun q hq => hf q (by simp [hq])) h

/-- Soundness of the first detection pattern. -/
theorem det1At_sound {s mt r : List Char} (h : det1At s = some (mt, r)) :
    s = mt ++ r ∧ mt ≠ [] :=
  firstHit_sound (fun _ _ _ _ hh => tryDet_sound hh) h

/-- Soundness of the second detection pattern. -/
theorem det2At_sound {s mt r : List Char} (h : det2At s = some (mt, r)) :
    s = mt ++ r ∧ mt ≠ [] :=
  firstHit_sound (fun _ _ _ _ hh => tryDet_sound hh) h

/-- Soundness of the first conversion pattern. -/
theorem conv1At_sound {s mt r : List Char} (h : conv1At s = some (mt, r)) :
    s = mt ++ r ∧ mt ≠ [] := by
  refine firstHit_sound (fun p hp mt' r' hh => tryConv_sound ?_ hh) h
  have hp' : p ∈ conv1Pats := hp
  unfold conv1Pats at hp'
  simp only [List.mem_cons, List.not_mem_nil, or_false] at hp'
  rcases hp' with h1 | h1 | h1 | h1 <;> subst h1 <;> decide

/-- Soundness of the second conversion pattern. -/
theorem conv2At_sound {s mt r : List Char} (h : conv2At s = some (mt, r)) :
    s = mt ++ r ∧ mt ≠ [] := by
  refine firstHit_sound (fun p hp mt' r' hh => tryConv_sound ?_ hh) h
  have hp' : p ∈ conv2Pats := hp
  unfold conv2Pats at hp'
  simp only [List.mem_cons, List.not_mem_nil, or_false] at hp'
  rcases hp' with h1 | h1 | h1 | h1 <;> subst h1 <;> decide

/-- A matcher is consuming when every match has a nonempty matched part that
is an actual prefix of the input. -/
def Consuming (m : List Char → Option (List Char × List Char)) : Prop :=
  ∀ s mt r, m s = some (mt, r) → s = mt ++ r ∧ mt ≠ []

theorem det1At_consuming : Consuming det1At := fun _ _ _ h => det1At_sound h
theorem det2At_consuming : Consuming det2At := fun _ _ _ h => det2At_sound h
theorem conv1At_consuming : Consuming conv1At := fun _ _ _ h => conv1At_sound h
theorem conv2At_consuming : Consuming conv2At := fun _ _ _ h => conv2At_sound h

theorem Consuming.length_lt {m} (hm : Consuming m) {s mt r : List Char}
    (h : m s = some (mt, r)) : r.length < s.length := by
  obtain ⟨hs, hne⟩ := hm s mt r h
  subst hs
  have hlen : mt.length ≠ 0 := by
    intro h0
    exact hne (List.length_eq_zero.mp h0)
  simp only [List.length_append]
  omega

/-- The starting position is bookkeeping only: the matched slices do not
depend on it. -/
theorem scanFuel_map_snd (m : List Char → Option (List Char × List Char)) :
    ∀ (fuel p q : Nat) (s : List Char),
    (scanFuel m fuel p s).map Prod.snd = (scanFuel m fuel q s).map Prod.snd := by
  intro fuel
  induction fuel with
  | zero => intro p q s; rfl
  | succ f ih =>
    intro p q s
    cases s with
    | nil => rfl
    | cons c rest =>
      simp only [scanFuel]
      cases hm : m (c :: rest) with
      | some pr =>
        obtain ⟨mt, r⟩ := pr
        simp only [List.map_cons]
        exact congrArg (List.cons mt) (ih _ _ r)
      | none => exact ih _ _ rest

/-- Any fuel at least the input length gives the canonical scan. -/
theorem scanFuel_irrel {m : List Char → Option (List Char × List Char)}
    (hm : Consuming m) :
    ∀ (fuel pos : Nat) (s : List Char), s.length ≤ fuel →
    scanFuel m fuel pos s = scanFuel m s.length pos s := by
  intro fuel
  induction fuel using Nat.strong_induction_on with
  | _ fuel ih =>
    intro pos s hle
    cases s with
    | nil => cases fuel <;> rfl
    | cons c rest =>
      cases fuel with
      | zero =>
        simp only [List.length_cons] at hle
        omega
      | succ f =>
        simp only [List.length_cons] at hle
        simp only [scanFuel, List.length_cons]
        cases hmm : m (c :: rest) with
        | none =>
          dsimp only
          rw [ih f (by omega) (pos + 1) rest (by omega)]
        | some pr =>
          obtain ⟨mt, r⟩ := pr
          dsimp only
          have hr : r.length < rest.length + 1 := by
            have := hm.length_lt hmm
            simpa using this
          rw [ih f (by omega) (pos + mt.length) r (by omega),
            ih rest.length (by omega) (pos + mt.length) r (by omega)]

/-- Any fuel at least the input length gives the canonical replacement. -/
theorem replaceFuel_irrel {m : List Char → Option (List Char × List Char)}
    (hm : Consuming m) (f : List Char → List Char) :
    ∀ (fuel : Nat) (s : List Char), s.length ≤ fuel →
    replaceFuel m f fuel s = replaceFuel m f s.length s := by
  intro fuel
  induction fuel using Nat.strong_induction_on with
  | _ fuel ih =>
    intro s hle
    cases s with
    | nil => cases fuel <;> rfl
    | cons c rest =>
      cases fuel with
      | zero =>
        simp only [List.length_cons] at hle
        omega
      | succ f =>
        simp only [List.length_cons] at hle
        simp only [replaceFuel, List.length_cons]
        cases hmm : m (c :: rest) with
        | none =>
          dsimp only
          rw [ih f (by omega) rest (by omega)]
        | some pr =>
          obtain ⟨mt, r⟩ := pr
          dsimp only
          have hr : r.length < rest.length + 1 := by
            have := hm.length_lt hmm
            simpa using this
          rw [ih f (by omega) r (by omega),
            ih rest.length (by omega) r (by omega)]

/-- A failed position contributes nothing to the scan. -/
theorem scanMatches_cons_none {m : List Char → Option (List Char × List Char)}
    {c : Char} {rest : List Char} (h : m (c :: rest) = none) :
    scanMatches m (c :: rest) = scanMatches m rest := by
  unfold scanMatches scanPos
  simp only [List.length_cons, scanFuel, h]
  exact scanFuel_map_snd m rest.length 1 0 rest

/-- A match is emitted and the scan continues right after it. -/
theorem scanMatches_match {m : List Char → Option (List Char × List Char)}
    (hm : Consuming m) {s mt r : List Char} (h : m s = some (mt, r)) :
    scanMatches m s = mt :: scanMatches m r := by
  obtain ⟨hs, hne⟩ := hm s mt r h
  cases s with
  | nil =>
    cases mt with
    | nil => exact absurd rfl hne
    | cons x xs => simp at hs
  | cons c rest =>
    unfold scanMatches scanPos
    simp only [List.length_cons, scanFuel, h, List.map_cons]
    refine congrArg (List.cons mt) ?_
    have hr : r.length ≤ rest.length := by
      have := hm.length_lt h
      simp only [List.length_cons] at this
      omega
    rw [scanFuel_irrel hm rest.length (0 + mt.length) r hr]
    exact scanFuel_map_snd m r.length (0 + mt.length) 0 r

/-- A failed position is copied through by the replacement. -/
theorem replaceAll_cons_none {m : List Char → Option (List Char × List Char)}
    {f : List Char → List Char} {c : Char} {rest : List Char}
    (h : m (c :: rest) = none) :
    replaceAll m f (c :: rest) = c :: replaceAll m f rest := by
  unfold replaceAll
  simp only [List.length_cons, replaceFuel, h]

/-- A match is rewritten by `f` and the replacement continues right after
it. -/
theorem replaceAll_match {m : List Char → Option (List Char × List Char)}
    (hm : Consuming m) (f : List Char → List Char) {s mt r : List Char}
    (h : m s = some (mt, r)) :
    replaceAll m f s = f mt ++ replaceAll m f r := by
  obtain ⟨hs, hne⟩ := hm s mt r h
  cases s with
  | nil =>
    cases mt with
    | nil => exact absurd rfl hne
    | cons x xs => simp at hs
  | cons c rest =>
    unfold replaceAll
    simp only [List.length_cons, replaceFuel, h]
    refine congrArg (f mt ++ ·) ?_
    have hr : r.length ≤ rest.length := by
      have := hm.length_lt h
      simp only [List.length_cons] at this
      omega
    exact replaceFuel_irrel hm f rest.length r hr

/-- `m` matches nowhere in `s` (at no suffix position). -/
def NoMatchAt (m : List Char → Option (List Char × List Char))
    (s : List Char) : Prop :=
  ∀ i, i ≤ s.length → m (s.drop i) = none

instance (m : List Char → Option (List Char × List Char)) (s : List Char) :
    Decidable (NoMatchAt m s) := by
  unfold NoMatchAt
  infer_instance

/-- With no match anywhere, the scan is empty. -/
theorem scanMatches_nil_of_noMatch {m : List Char → Option (List Char × List Char)}
    {s : List Char} (h : NoMatchAt m s) : scanMatches m s = [] := by
  induction s with
  | nil => rfl
  | cons c rest ih =>
    rw [scanMatches_cons_none (h 0 (by simp))]
    refine ih (fun i hi => ?_)
    have := h (i + 1) (by simp only [List.length_cons]; omega)
    simpa using this

/-- With no match anywhere, the replacement is the identity. -/
theorem replaceAll_id_of_noMatch {m : List Char → Option (List Char × List Char)}
    {f : List Char → List Char} {s : List Char} (h : NoMatchAt m s) :
    replaceAll m f s = s := by
  induction s with
  | nil => rfl
  | cons c rest ih =>
    rw [replaceAll_cons_none (h 0 (by simp))]
    refine congrArg (List.cons c) (ih (fun i hi => ?_))
    have := h (i + 1) (by simp only [List.length_cons]; omega)
    simpa using this

/-- A region with no match starting inside it is skipped by the scan. -/
theorem scanMatches_skip {m : List Char → Option (List Char × List Char)}
    {a b : List Char} (ha : ∀ i, i < a.length → m (a.drop i ++ b) = none) :
    scanMatches m (a ++ b) = scanMatches m b := by
  induction a with
  | nil => simp
  | cons c a' ih =>
    have h0 : m (c :: (a' ++ b)) = none := by
      have := ha 0 (by simp)
      simpa using this
    rw [List.cons_append, scanMatches_cons_none h0]
    refine ih (fun i hi => ?_)
    have := ha (i + 1) (by simp only [List.length_cons]; omega)
    simpa using this

/-- A region with no match starting inside it is copied through by the
replacement. -/
theorem replaceAll_skip {m : List Char → Option (List Char × List Char)}
    {f : List Char → List Char} {a b : List Char}
    (ha : ∀ i, i < a.length → m (a.drop i ++ b) = none) :
    replaceAll m f (a ++ b) = a ++ replaceAll m f b := by
  induction a with
  | nil => simp
  | cons c a' ih =>
    have h0 : m (c :: (a' ++ b)) = none := by
      have := ha 0 (by simp)
      simpa using this
    rw [List.cons_append, replaceAll_cons_none h0, List.cons_append]
    refine congrArg (List.cons c) (ih (fun i hi => ?_))
    have := ha (i + 1) (by simp only [List.length_cons]; omega)
    simpa using this

/-- Assemble absence of matches over a concatenation. -/
theorem noMatchAt_append {m : List Char → Option (List Char × List Char)}
    {a b : List Char} (ha : ∀ i, i < a.length → m (a.drop i ++ b) = none)
    (hb : NoMatchAt m b) : NoMatchAt m (a ++ b) := by
  intro i hi
  by_cases hlt : i < a.length
  · rw [List.drop_append_of_le_length (le_of_lt hlt)]
    exact ha i hlt
  · push_neg at hlt
    obtain ⟨k, hk⟩ : ∃ k, i = a.length + k := ⟨i - a.length, by omega⟩
    subst hk
    rw [List.drop_append]
    apply hb
    simp only [List.length_append] at hi
    omega

/-- Every emitted position is at least the running offset. -/
theorem scanFuel_fst_le (m : List Char → Option (List Char × List Char)) :
    ∀ (fuel pos : Nat) (s : List Char),
    ∀ x ∈ scanFuel m fuel pos s, pos ≤ x.1 := by
  intro fuel
  induction fuel with
  | zero => intro pos s x hx; simp [scanFuel] at hx
  | succ f ih =>
    intro pos s x hx
    cases s with
    | nil => simp [scanFuel] at hx
    | cons c rest =>
      simp only [scanFuel] at hx
      cases hmm : m (c :: rest) with
      | some pr =>
        obtain ⟨mt, r⟩ := pr
        rw [hmm] at hx
        dsimp only at hx
        rcases List.mem_cons.mp hx with h1 | h1
        · simp [h1]
        · have := ih (pos + mt.length) r x h1
          omega
      | none =>
        rw [hmm] at hx
        dsimp only at hx
        have := ih (pos + 1) rest x hx
        omega

/-- The emitted positions are strictly increasing: matches are reported in
order of their occurrence in the text. -/
theorem scanFuel_pairwise {m : List Char → Option (List Char × List Char)}
    (hm : Consuming m) :
    ∀ (fuel pos : Nat) (s : List Char),
    List.Pairwise (· < ·) ((scanFuel m fuel pos s).map Prod.fst) := by
  intro fuel
  induction fuel with
  | zero => intro pos s; simp [scanFuel]
  | succ f ih =>
    intro pos s
    cases s with
    | nil => simp [scanFuel]
    | cons c rest =>
      simp only [scanFuel]
      cases hmm : m (c :: rest) with
      | none => exact ih (pos + 1) rest
      | some pr =>
        obtain ⟨mt, r⟩ := pr
        dsimp only
        simp only [List.map_cons, List.pairwise_cons]
        refine ⟨?_, ih (pos + mt.length) r⟩
        intro b hb
        obtain ⟨x, hx, hxb⟩ := List.mem_map.mp hb
        have h1 := scanFuel_fst_le m f (pos + mt.length) r x hx
        have hne : mt ≠ [] := (hm _ _ _ hmm).2
        have hlen : mt.length ≠ 0 := fun h0 => hne (List.length_eq_zero.mp h0)
        rw [← hxb]
        omega

/-- Every reported match occurs in the text at its reported position. -/
theorem scanFuel_occ {m : List Char → Option (List Char × List Char)}
    (hm : Consuming m) :
    ∀ (fuel pos : Nat) (s : List Char), ∀ x ∈ scanFuel m fuel pos s,
    ∃ k, x.1 = pos + k ∧ (s.drop k).take x.2.length = x.2 := by
  intro fuel
  induction fuel with
  | zero => intro pos s x hx; simp [scanFuel] at hx
  | succ f ih =>
    intro pos s x hx
    cases s with
    | nil => simp [scanFuel] at hx
    | cons c rest =>
      simp only [scanFuel] at hx
      cases hmm : m (c :: rest) with
      | none =>
        rw [hmm] at hx
        dsimp only at hx
        obtain ⟨k, hk1, hk2⟩ := ih (pos + 1) rest x hx
        exact ⟨k + 1, by omega, by simpa using hk2⟩
      | some pr =>
        obtain ⟨mt, r⟩ := pr
        rw [hmm] at hx
        dsimp only at hx
        rcases List.mem_cons.mp hx with h1 | h1
        · subst h1
          refine ⟨0, by simp, ?_⟩
          obtain ⟨hs, _⟩ := hm _ _ _ hmm
          simp only [List.drop_zero]
          rw [hs]
          exact List.take_left mt r
        · obtain ⟨k, hk1, hk2⟩ := ih (pos + mt.length) r x h1
          obtain ⟨hs, _⟩ := hm _ _ _ hmm
          refine ⟨mt.length + k, by omega, ?_⟩
          rw [hs, List.drop_append]
          exact hk2

/-!
Part 4: helper lemmas about the ledger.
-/

/-- Filtering for a condition after filtering for its negation leaves
nothing. -/
theorem filter_not_filter {α : Type} (p : α → Bool) (l : List α) :
    (l.filter (fun a => !(p a))).filter p = [] := by
  induction l with
  | nil => rfl
  | cons x xs ih => cases hx : p x <;> simp [List.filter_cons, hx, ih]

/-- Filtering commutes out of a coarser filter. -/
theorem filter_absorb {α : Type} (p q : α → Bool) (l : List α)
    (h : ∀ x, p x = true → q x = true) :
    (l.filter q).filter p = l.filter p := by
  induction l with
  | nil => rfl
  | cons x xs ih =>
    cases hq : q x
    · have hp : p x = false := by
        cases hpx : p x
        · rfl
        · rw [h x hpx] at hq; cases hq
      simp [List.filter_cons, hq, hp, ih]
    · simp [List.filter_cons, hq, ih]

/-- Two contradictory filters leave nothing. -/
theorem filter_conflict {α : Type} (p q : α → Bool) (l : List α)
    (h : ∀ x, p x = true → q x = false) :
    (l.filter q).filter p = [] := by
  induction l with
  | nil => rfl
  | cons x xs ih =>
    cases hq : q x
    · simp [List.filter_cons, hq, ih]
    · have hp : p x = false := by
        cases hpx : p x
        · rfl
        · rw [h x hpx] at hq; cases hq
      simp [List.filter_cons, hq, hp, ih]

/-- `find?` under a predicate satisfied by exactly one member. -/
theorem find?_unique {α : Type} (p : α → Bool) (l : List α) (a : α)
    (ha : a ∈ l) (hp : p a = true)
    (huniq : ∀ b ∈ l, p b = true → b = a) : l.find? p = some a := by
  induction l with
  | nil => simp at ha
  | cons x xs ih =>
    by_cases hx : p x = true
    · rw [List.find?_cons_of_pos _ hx]
      exact congrArg some (huniq x (by simp) hx)
    · rw [List.find?_cons_of_neg _ hx]
      rcases List.mem_cons.mp ha with h1 | h1
      · rw [h1] at hp; exact absurd hp hx
      · exact ih h1 (fun b hb hpb => huniq b (by simp [hb]) hpb)

/-- A `Nodup` key column makes the key a proper primary key: rows agreeing on
it are equal. -/
theorem nodup_key_unique {l : List StoredMessage}
    (h : (l.map (fun m => m.messageId)).Nodup) :
    ∀ a ∈ l, ∀ b ∈ l, a.messageId = b.messageId → a = b := by
  induction l with
  | nil => simp
  | cons x xs ih =>
    simp only [List.map_cons, List.nodup_cons] at h
    obtain ⟨hx, hxs⟩ := h
    intro a ha b hb hab
    rcases List.mem_cons.mp ha with h1 | h1 <;>
      rcases List.mem_cons.mp hb with h2 | h2
    · rw [h1, h2]
    · subst h1
      refine absurd ?_ hx
      rw [hab]
      exact List.mem_map_of_mem (fun m : StoredMessage => m.messageId) h2
    · subst h2
      refine absurd ?_ hx
      rw [← hab]
      exact List.mem_map_of_mem (fun m : StoredMessage => m.messageId) h1
    · exact ih hxs a h1 b h2 hab

/-- The upsert leaves exactly the new row under its key. -/
theorem storeMessage_filter_key (db : MessageDatabase) (i : StoredMessageInput) :
    (storeMessage i db).messages.filter (fun m => m.messageId == i.messageId)
      = [i.toStored] := by
  unfold storeMessage
  simp only
  rw [List.filter_append,
    filter_not_filter (fun m => m.messageId == i.messageId) db.messages]
  simp [List.filter_cons, StoredMessageInput.toStored]

/-- The upsert makes the new row the lookup result under its key. -/
theorem getMessage_storeMessage (db : MessageDatabase) (i : StoredMessageInput) :
    getMessage i.messageId (storeMessage i db) = some i.toStored := by
  unfold getMessage storeMessage
  simp only
  rw [List.find?_append]
  have h1 : (db.messages.filter (fun m => !(m.messageId == i.messageId))).find?
      (fun m => m.messageId == i.messageId) = none := by
    rw [List.find?_eq_none]
    intro x hx
    have hmem := List.mem_filter.mp hx
    simpa using hmem.2
  rw [h1]
  simp [List.find?_cons, StoredMessageInput.toStored]

/-!
Part 5: the claims about the ledger.
-/

/-- A sample conversion input used to exhibit claim C1. -/
def c1Input : StoredMessageInput :=
  { messageId := "m1", channelId := "chan1", guildId := "guild1",
    authorId := "u1", authorTag := "UserOne#0001",
    originalContent := "https://reddit.com/r/test",
    convertedContent := "https://rxddit.com/r/test",
    originalLinks := "links", convertedLinks := "convertedlinks",
    botMessageId := "b1", createdAt := 0 }

/-- Claim C1 (code-bug exhibit): the claim states that `tryRevert`
(`markAsReverted`) is an atomic compare-and-set — true only on the
transition, and false on a second call.  On the code, the `UPDATE` has no
`is_reverted = 0` guard and SQLite counts a matched row as changed even when
the value is unchanged, so after recording `"m1"` the first call returns
true, sets the flag — and a second call returns true again, contradicting
at-most-once. -/
theorem C1_markAsReverted_second_call_also_true :
    (markAsReverted "m1" (storeMessage c1Input emptyDb)).1 = true
    ∧ (getMessage "m1"
        (markAsReverted "m1" (storeMessage c1Input emptyDb)).2).map
        (fun m => m.isReverted) = some true
    ∧ (markAsReverted "m1"
        (markAsReverted "m1" (storeMessage c1Input emptyDb)).2).1 = true := by
  decide

/-- Claim C2: calling `recordConversion` (`storeMessage`) twice with the
same `originalMessageId`, with or without a revert in between, leaves
exactly one record under that key, carrying the second call's content with
the reverted flag false. -/
theorem C2_recordConversion_idempotent_upsert
    (db : MessageDatabase) (i1 i2 : StoredMessageInput) (b : Bool)
    (hkey : i1.messageId = i2.messageId) :
    ((storeMessage i2
        (if b then (markAsReverted i1.messageId (storeMessage i1 db)).2
         else storeMessage i1 db)).messages.filter
      (fun m => m.messageId == i2.messageId)) = [i2.toStored]
    ∧ getMessage i2.messageId
        (storeMessage i2
          (if b then (markAsReverted i1.messageId (storeMessage i1 db)).2
           else storeMessage i1 db)) = some i2.toStored :=
  ⟨storeMessage_filter_key _ i2, getMessage_storeMessage _ i2⟩

/-- Witness for C2 at concrete inputs: the same key stored twice with
different content, reverted in between. -/
theorem C2_recordConversion_idempotent_upsert_witness :
    ((storeMessage { c1Input with authorTag := "Second#0002" }
        (if true then (markAsReverted c1Input.messageId
            (storeMessage c1Input emptyDb)).2
         else storeMessage c1Input emptyDb)).messages.filter
      (fun m => m.messageId ==
        ({ c1Input with authorTag := "Second#0002" } : StoredMessageInput).messageId))
      = [({ c1Input with authorTag := "Second#0002" } : StoredMessageInput).toStored]
    ∧ getMessage ({ c1Input with authorTag := "Second#0002" } : StoredMessageInput).messageId
        (storeMessage { c1Input with authorTag := "Second#0002" }
          (if true then (markAsReverted c1Input.messageId
              (storeMessage c1Input emptyDb)).2
           else storeMessage c1Input emptyDb))
      = some ({ c1Input with authorTag := "Second#0002" } : StoredMessageInput).toStored :=
  C2_recordConversion_idempotent_upsert emptyDb c1Input
    { c1Input with authorTag := "Second#0002" } true rfl

/-- Claim C3 (the replacement-id lookup itself is modelled from the spec,
see `getMessageByBotMessageId`): for a stored record whose replacement id no
other record shares, lookup by the replacement id returns it; an id that no
record carries yields absent; and the original-id lookup path `getMessage`
behaves the same way on the primary key, so the reaction handler has both
paths. -/
theorem C3_lookup_by_replacement_id :
    (∀ (db : MessageDatabase) (rec : StoredMessage), rec ∈ db.messages →
      (∀ r' ∈ db.messages, r'.botMessageId = rec.botMessageId → r' = rec) →
      getMessageByBotMessageId rec.botMessageId db = some rec)
    ∧ (∀ (db : MessageDatabase) (bid : String),
      (∀ r' ∈ db.messages, r'.botMessageId ≠ bid) →
      getMessageByBotMessageId bid db = none)
    ∧ (∀ (db : MessageDatabase) (rec : StoredMessage), rec ∈ db.messages →
      (∀ r' ∈ db.messages, r'.messageId = rec.messageId → r' = rec) →
      getMessage rec.messageId db = some rec) := by
  refine ⟨?_, ?_, ?_⟩
  · intro db rec hmem huniq
    exact find?_unique _ db.messages rec hmem (by simp)
      (fun b hb hpb => huniq b hb (by simpa using hpb))
  · intro db bid hnone
    rw [getMessageByBotMessageId, List.find?_eq_none]
    intro x hx
    simpa using hnone x hx
  · intro db rec hmem huniq
    exact find?_unique _ db.messages rec hmem (by simp)
      (fun b hb hpb => huniq b hb (by simpa using hpb))

/-- A sample conversion input used for the C3 witness. -/
def c3Input : StoredMessageInput :=
  { messageId := "m3", channelId := "chan3", guildId := "guild3",
    authorId := "u3", authorTag := "UserThree#0003",
    originalContent := "https://reddit.com/r/three",
    convertedContent := "https://rxddit.com/r/three",
    originalLinks := "links3", convertedLinks := "convertedlinks3",
    botMessageId := "bot3", createdAt := 3 }

/-- Witness for C3: on a concrete one-record ledger, the stored record is
found under its replacement id, an unknown replacement id is absent, and the
original-id path finds the record too. -/
theorem C3_lookup_by_replacement_id_witness :
    getMessageByBotMessageId "bot3" (storeMessage c3Input emptyDb)
      = some c3Input.toStored
    ∧ getMessageByBotMessageId "nosuch" (storeMessage c3Input emptyDb) = none
    ∧ getMessage "m3" (storeMessage c3Input emptyDb) = some c3Input.toStored := by
  refine ⟨?_, ?_, ?_⟩
  · exact C3_lookup_by_replacement_id.1 (storeMessage c3Input emptyDb)
      c3Input.toStored (by decide) (by decide)
  · exact C3_lookup_by_replacement_id.2.1 (storeMessage c3Input emptyDb)
      "nosuch" (by decide)
  · exact C3_lookup_by_replacement_id.2.2 (storeMessage c3Input emptyDb)
      c3Input.toStored (by decide) (by decide)

/-- The reaction payload the `MessageReactionAdd` handler constructs
(src/src/bot.ts:175-182): its reactor-identity property is literally named
`userId` at the call site. -/
structure HandlerReactionPayload where
  messageId : String
  userId : String
  userTag : String
  emoji : String
  reactedAt : Int
  isRevertReaction : Bool
  deriving DecidableEq, Repr

/-- JavaScript property access on the handler payload, by property name;
a property the object does not carry reads as `undefined` (`none`). -/
def HandlerReactionPayload.read (p : HandlerReactionPayload) :
    String → Option String
  | "messageId" => some p.messageId
  | "userId" => some p.userId
  | "userTag" => some p.userTag
  | "emoji" => some p.emoji
  | _ => none

/-- `storeReaction` as reached from the handler: database.ts:985-1002 binds
the payload's `odId` property for the `user_id` column.  Binding `undefined`
(or violating `user_id TEXT NOT NULL`) makes the statement throw, here
`none`. -/
def storeReactionFromHandler (p : HandlerReactionPayload)
    (db : MessageDatabase) : Option (Nat × MessageDatabase) :=
  match p.read "messageId", p.read "odId", p.read "userTag", p.read "emoji" with
  | some mid, some uid, some utag, some emo =>
    storeReaction { messageId := mid, odId := uid, userTag := utag,
                    emoji := emo, reactedAt := p.reactedAt,
                    isRevertReaction := p.isRevertReaction } db
  | _, _, _, _ => none

/-- Claim C8 (code-bug exhibit): the claim states the reactor id round-trips
into the ledger under the canonical field.  On the code, the handler passes
the id under `userId` while the database interface and insert read `odId`,
so the binding is `undefined` for every payload and every ledger state: the
insert fails and no stored reaction ever carries the reactor id. -/
theorem C8_reactor_id_never_reaches_ledger (p : HandlerReactionPayload)
    (db : MessageDatabase) : storeReactionFromHandler p db = none := by
  have hodid : p.read "odId" = none := rfl
  unfold storeReactionFromHandler
  rw [hodid]
  cases p.read "messageId" <;> cases p.read "userTag" <;>
    cases p.read "emoji" <;> rfl

/-- A reaction input referencing a message id with no record. -/
def c9Ghost : ReactionInput :=
  { messageId := "ghost", odId := "u9", userTag := "UserNine#0009",
    emoji := "robot", reactedAt := 0, isRevertReaction := false }

/-- Claim C9 counterexample: `recordReaction` (`storeReaction`) does not
always succeed — on a ledger without the referenced record the enforced
foreign key rejects the insert instead of appending. -/
theorem C9_storeReaction_absent_record_fails :
    storeReaction c9Ghost emptyDb = none := rfl

/-- Claim C9 amended: whenever the referenced ConversionRecord exists — in
particular regardless of its reverted flag — `storeReaction` returns the
next identifier and appends exactly one row, leaving all messages and all
existing reaction rows untouched; for an absent record the foreign-key
constraint rejects the insert (see the counterexample). -/
theorem C9_storeReaction_appends (db : MessageDatabase) (r : ReactionInput)
    (h : ∃ m ∈ db.messages, m.messageId = r.messageId) :
    storeReaction r db = some (db.nextReactionId,
      { messages := db.messages,
        reactions := db.reactions ++ [r.withId db.nextReactionId],
        nextReactionId := db.nextReactionId + 1 }) := by
  unfold storeReaction
  rw [if_pos]
  rw [List.any_eq_true]
  obtain ⟨m, hm, he⟩ := h
  exact ⟨m, hm, by simpa using he⟩

/-- A reaction input for the C9 witness, on a record that is already
reverted. -/
def c9Input : ReactionInput :=
  { messageId := "m1", odId := "u1", userTag := "UserOne#0001",
    emoji := "robot", reactedAt := 5, isRevertReaction := true }

/-- Witness for C9: appending a reaction to a reverted record succeeds with
identifier 1. -/
theorem C9_storeReaction_appends_witness :
    storeReaction c9Input
      (markAsReverted "m1" (storeMessage c1Input emptyDb)).2
      = some ((markAsReverted "m1" (storeMessage c1Input emptyDb)).2.nextReactionId,
        { messages := (markAsReverted "m1" (storeMessage c1Input emptyDb)).2.messages,
          reactions := (markAsReverted "m1" (storeMessage c1Input emptyDb)).2.reactions
            ++ [c9Input.withId (markAsReverted "m1" (storeMessage c1Input emptyDb)).2.nextReactionId],
          nextReactionId := (markAsReverted "m1" (storeMessage c1Input emptyDb)).2.nextReactionId + 1 }) :=
  C9_storeReaction_appends _ c9Input (by decide)

/-- One ledger operation, as invoked by the orchestrator: an upsert, a revert
attempt, a successful delete, a successful reaction insert, or a retention
sweep. -/
inductive LedgerStep : MessageDatabase → MessageDatabase → Prop where
  | store : ∀ (i : StoredMessageInput) (db : MessageDatabase),
      LedgerStep db (storeMessage i db)
  | revert : ∀ (mid : String) (db : MessageDatabase),
      LedgerStep db (markAsReverted mid db).2
  | delete : ∀ (mid : String) (db : MessageDatabase) (ok : Bool)
      (db' : MessageDatabase), deleteMessage mid db = some (ok, db') →
      LedgerStep db db'
  | react : ∀ (r : ReactionInput) (db : MessageDatabase) (n : Nat)
      (db' : MessageDatabase), storeReaction r db = some (n, db') →
      LedgerStep db db'
  | purge : ∀ (d : Nat) (now : Int) (db : MessageDatabase),
      LedgerStep db (cleanupOldMessages d now db).2

/-- Ledger states reachable from a fresh database by any operation
sequence. -/
inductive Reachable : MessageDatabase → Prop where
  | init : Reachable emptyDb
  | step : ∀ {db db' : MessageDatabase}, Reachable db → LedgerStep db db' →
      Reachable db'

/-- Claim C10: in every reachable ledger state, `getStats` reports a
reverted count no larger than the conversion count (reverted rows are a
filtered subset of the `messages` rows). -/
theorem C10_stats_reverted_le_total (db : MessageDatabase)
    (h : Reachable db) :
    (getStats db).revertedCount ≤ (getStats db).totalMessages := by
  unfold getStats
  simp only
  exact List.length_filter_le _ _

/-- Witness for C10 at a concrete reachable state: store then revert. -/
theorem C10_stats_reverted_le_total_witness :
    (getStats (markAsReverted "m1" (storeMessage c1Input emptyDb)).2).revertedCount
      ≤ (getStats (markAsReverted "m1" (storeMessage c1Input emptyDb)).2).totalMessages :=
  C10_stats_reverted_le_total _
    (Reachable.step (Reachable.step Reachable.init (LedgerStep.store c1Input emptyDb))
      (LedgerStep.revert "m1" (storeMessage c1Input emptyDb)))

/-- Boolean `contains` on the id lists agrees with membership. -/
theorem contains_eq_true_iff {l : List String} {a : String} :
    l.contains a = true ↔ a ∈ l := by
  induction l with
  | nil => simp
  | cons x xs ih =>
    simp only [List.contains_cons, Bool.or_eq_true, beq_iff_eq, List.mem_cons, ih]

/-- Claim C6: `purgeOlderThan` (`cleanupOldMessages`, with the wall clock as
the explicit parameter `now` and the cutoff `now - daysOld·86400000`) returns
the number of removed conversion records; removes exactly the records older
than the cutoff; afterwards `listReactions` for a purged id is empty; every
record not older than the cutoff survives with its reactions unchanged; and
on a well-formed state (enforced primary and foreign keys) no reaction row
references a missing record afterwards. -/
theorem C6_purge_cascades (db : MessageDatabase) (daysOld : Nat) (now : Int)
    (hwf : WellFormed db) :
    (cleanupOldMessages daysOld now db).1
        = (db.messages.filter (fun m =>
            decide (m.createdAt < now - (daysOld : Int) * 86400000))).length
    ∧ (cleanupOldMessages daysOld now db).2.messages
        = db.messages.filter (fun m =>
            !decide (m.createdAt < now - (daysOld : Int) * 86400000))
    ∧ (∀ m ∈ db.messages, m.createdAt < now - (daysOld : Int) * 86400000 →
        getReactions m.messageId (cleanupOldMessages daysOld now db).2 = [])
    ∧ (∀ m ∈ db.messages, ¬(m.createdAt < now - (daysOld : Int) * 86400000) →
        m ∈ (cleanupOldMessages daysOld now db).2.messages
        ∧ getReactions m.messageId (cleanupOldMessages daysOld now db).2
            = getReactions m.messageId db)
    ∧ (∀ r ∈ (cleanupOldMessages daysOld now db).2.reactions,
        ∃ m ∈ (cleanupOldMessages daysOld now db).2.messages,
          m.messageId = r.messageId) := by
  obtain ⟨hpk, hfk⟩ := hwf
  refine ⟨rfl, rfl, ?_, ?_, ?_⟩
  · intro m hm hold
    unfold getReactions cleanupOldMessages
    simp only
    rw [filter_conflict _ _ db.reactions ?_]
    · rfl
    · intro x hx
      have hxid : x.messageId = m.messageId := by simpa using hx
      have hmem : m.messageId ∈ (db.messages.filter (fun m' =>
          decide (m'.createdAt < now - (daysOld : Int) * 86400000))).map
          (fun m' => m'.messageId) := by
        refine List.mem_map_of_mem (fun m' : StoredMessage => m'.messageId) ?_
        exact List.mem_filter.mpr ⟨hm, by simpa using hold⟩
      simp only [Bool.not_eq_false']
      rw [hxid]
      exact contains_eq_true_iff.mpr hmem
  · intro m hm hnot
    have hnotold : m.messageId ∉ (db.messages.filter (fun m' =>
        decide (m'.createdAt < now - (daysOld : Int) * 86400000))).map
        (fun m' => m'.messageId) := by
      intro hcon
      obtain ⟨m', hm', he⟩ := List.mem_map.mp hcon
      obtain ⟨hm'mem, hm'old⟩ := List.mem_filter.mp hm'
      have := nodup_key_unique hpk m' hm'mem m hm he
      rw [this] at hm'old
      exact hnot (by simpa using hm'old)
    constructor
    · unfold cleanupOldMessages
      simp only
      exact List.mem_filter.mpr ⟨hm, by simpa using hnot⟩
    · unfold getReactions cleanupOldMessages
      simp only
      rw [filter_absorb _ _ db.reactions ?_]
      intro x hx
      have hxid : x.messageId = m.messageId := by simpa using hx
      simp only [Bool.not_eq_true']
      rw [hxid]
      rw [← Bool.not_eq_true]
      intro hcon
      exact hnotold (contains_eq_true_iff.mp hcon)
  · intro r hr
    unfold cleanupOldMessages at hr ⊢
    simp only at hr ⊢
    obtain ⟨hrmem, hrkeep⟩ := List.mem_filter.mp hr
    obtain ⟨m0, hm0, hm0id⟩ := hfk r hrmem
    refine ⟨m0, List.mem_filter.mpr ⟨hm0, ?_⟩, hm0id⟩
    simp only [Bool.not_eq_true', decide_eq_false_iff_not]
    intro hcon
    have : r.messageId ∈ (db.messages.filter (fun m' =>
        decide (m'.createdAt < now - (daysOld : Int) * 86400000))).map
        (fun m' => m'.messageId) := by
      rw [← hm0id]
      refine List.mem_map_of_mem (fun m' : StoredMessage => m'.messageId) ?_
      exact List.mem_filter.mpr ⟨hm0, by simpa using hcon⟩
    have hcontains := contains_eq_true_iff.mpr this
    rw [hcontains] at hrkeep
    simp at hrkeep

/-- A record old enough to be purged, with two reactions in the sample
state. -/
def c6Old : StoredMessage :=
  { messageId := "old1", channelId := "chan6", guildId := "guild6",
    authorId := "u6", authorTag := "UserSix#0006",
    originalContent := "https://reddit.com/r/old",
    convertedContent := "https://rxddit.com/r/old",
    originalLinks := "linksOld", convertedLinks := "convertedOld",
    botMessageId := "bot6old", createdAt := 0, isReverted := false }

/-- A record newer than the threshold in the sample state. -/
def c6New : StoredMessage :=
  { messageId := "new1", channelId := "chan6", guildId := "guild6",
    authorId := "u6", authorTag := "UserSix#0006",
    originalContent := "https://reddit.com/r/new",
    convertedContent := "https://rxddit.com/r/new",
    originalLinks := "linksNew", convertedLinks := "convertedNew",
    botMessageId := "bot6new", createdAt := 2592000010, isReverted := false }

/-- Sample state for the C6 witness: an old record with two reactions and a
new record with one. -/
def c6Db : MessageDatabase :=
  { messages := [c6Old, c6New],
    reactions :=
      [ { id := 1, messageId := "old1", odId := "u7", userTag := "A#1",
          emoji := "robot", reactedAt := 1, isRevertReaction := false },
        { id := 2, messageId := "old1", odId := "u6", userTag := "B#2",
          emoji := "robot", reactedAt := 2, isRevertReaction := true },
        { id := 3, messageId := "new1", odId := "u8", userTag := "C#3",
          emoji := "robot", reactedAt := 3, isRevertReaction := false } ],
    nextReactionId := 4 }

/-- Witness for C6 on the sample state: the 30-day sweep at
`now = 2592000010` removes exactly the old record, empties its reaction
list, and leaves the new record's reactions untouched. -/
theorem C6_purge_cascades_witness :
    (cleanupOldMessages 30 2592000010 c6Db).1 = 1
    ∧ getReactions "old1" (cleanupOldMessages 30 2592000010 c6Db).2 = []
    ∧ c6New ∈ (cleanupOldMessages 30 2592000010 c6Db).2.messages
    ∧ getReactions "new1" (cleanupOldMessages 30 2592000010 c6Db).2
        = getReactions "new1" c6Db := by
  have h := C6_purge_cascades c6Db 30 2592000010 (by decide)
  refine ⟨?_, ?_, ?_, ?_⟩
  · rw [h.1]; decide
  · exact h.2.2.1 c6Old (by decide) (by decide)
  · exact (h.2.2.2.1 c6New (by decide) (by decide)).1
  · exact (h.2.2.2.1 c6New (by decide) (by decide)).2

/-!
Part 6: the claims about the link transformer.
-/

/-- The C4 counterexample text: an old.reddit.com link before a bare
reddit.com link. -/
def c4Text : List Char :=
  "https://old.reddit.com/r/a https://reddit.com/r/b".toList

/-- Claim C4 counterexample: in `c4Text` the old.reddit.com link appears
first (the text is that link, a space, then the bare link), yet
`detectRedditLinks` lists the bare reddit.com link first — the claimed order
of first appearance is violated across pattern families. -/
theorem C4_detect_order_counterexample :
    c4Text = "https://old.reddit.com/r/a".toList
        ++ ' ' :: "https://reddit.com/r/b".toList
    ∧ detectRedditLinks c4Text
        = ["https://reddit.com/r/b".toList,
           "https://old.reddit.com/r/a".toList] := by
  exact ⟨rfl, rfl⟩

/-- Claim C4 amended: `detectRedditLinks` returns the first pattern family's
matches (reddit.com / www.reddit.com) followed by the second family's
(old/new.reddit.com), each family in order of first appearance in the text
(strictly increasing start offsets, with every reported match occurring at
its offset), deduplicated keeping first occurrences.  Order of first
appearance therefore holds within each family but not across the two
families (see the counterexample). -/
theorem C4_detect_per_family_order (s : List Char) :
    detectRedditLinks s
      = dedupKeepFirst ((scanPos det1At s).map Prod.snd
          ++ (scanPos det2At s).map Prod.snd)
    ∧ List.Pairwise (· < ·) ((scanPos det1At s).map Prod.fst)
    ∧ List.Pairwise (· < ·) ((scanPos det2At s).map Prod.fst)
    ∧ (∀ x ∈ scanPos det1At s, (s.drop x.1).take x.2.length = x.2)
    ∧ (∀ x ∈ scanPos det2At s, (s.drop x.1).take x.2.length = x.2) := by
  refine ⟨rfl, scanFuel_pairwise det1At_consuming s.length 0 s,
    scanFuel_pairwise det2At_consuming s.length 0 s, ?_, ?_⟩
  · intro x hx
    obtain ⟨k, hk1, hk2⟩ := scanFuel_occ det1At_consuming s.length 0 s x hx
    rw [hk1]
    simpa using hk2
  · intro x hx
    obtain ⟨k, hk1, hk2⟩ := scanFuel_occ det2At_consuming s.length 0 s x hx
    rw [hk1]
    simpa using hk2

/-- Witness for the C4 amended theorem: on the counterexample text, the
second family's reported match really is the old.reddit.com link at offset
0. -/
theorem C4_detect_per_family_order_witness :
    (c4Text.drop (0 : Nat)).take ("https://old.reddit.com/r/a".toList).length
      = "https://old.reddit.com/r/a".toList :=
  (C4_detect_per_family_order c4Text).2.2.2.2
    (0, "https://old.reddit.com/r/a".toList) (by decide)

/-- The C5 counterexample link: a recognized link whose query string embeds
another reddit.com URL. -/
def c5Link : List Char :=
  "https://reddit.com/r/a?u=https://reddit.com/r/b".toList

/-- Claim C5 counterexample: `c5Link` is a recognized link (detection
returns exactly it), but `convertToRxddit` also rewrites the reddit.com
occurrence inside its query string, so the path and query (the part after
the 18-character scheme+host) are not byte-for-byte identical. -/
theorem C5_convertOne_counterexample :
    detectRedditLinks c5Link = [c5Link]
    ∧ convertToRxddit c5Link
        = "https://rxddit.com/r/a?u=https://rxddit.com/r/b".toList
    ∧ List.drop 18 (convertToRxddit c5Link) ≠ List.drop 18 c5Link := by
  refine ⟨rfl, rfl, by decide⟩

/-- The eight scheme+host forms recognized by `convertToRxddit`. -/
def hostForms : List (List Char) := conv1Pats ++ conv2Pats

/-- A mismatch inside the head region makes every alternative fail there. -/
theorem firstHit_conv_none {pats : List (List Char)} {a b : List Char}
    (h : ∀ p ∈ pats, stripFails p a = true) :
    firstHit tryConv pats (a ++ b) = none := by
  induction pats with
  | nil => rfl
  | cons p ps ih =>
    simp only [firstHit, tryConv, stripCI_none_of_fails (h p (by simp)) b]
    exact ih (fun q hq => h q (by simp [hq]))

/-- When `pre` is a case variant of `A`, the priority scan over the
alternatives resolves to the alternative `p0` whose lower image is `A`,
consuming exactly `pre`, provided all earlier alternatives mismatch `A`
inside `A`. -/
theorem firstHit_conv_exact (pats1 : List (List Char)) (p0 : List Char)
    (pats2 : List (List Char)) (pre tail A : List Char)
    (hA : pre.map lowerChar = A) (hAl : A.map lowerChar = A)
    (hfail : ∀ p ∈ pats1, stripFails p A = true)
    (hp0 : A = p0.map lowerChar) :
    firstHit tryConv (pats1 ++ p0 :: pats2) (pre ++ tail) = some (pre, tail) := by
  induction pats1 with
  | nil =>
    simp only [List.nil_append, firstHit, tryConv]
    rw [stripCI_of_map_eq (hA.trans hp0) tail]
  | cons q qs ih =>
    have hq : stripFails q pre = true := by
      rw [stripFails_congr q (hA.trans hAl.symm)]
      exact hfail q (by simp)
    simp only [List.cons_append, firstHit, tryConv,
      stripCI_none_of_fails hq tail]
    exact ih (fun p hp => hfail p (by simp [hp]))

/-- When `pre` is a case variant of `A` and every alternative mismatches `A`
at every offset inside `A`, no alternative matches at any position inside
`pre`, whatever follows. -/
theorem firstHit_conv_none_region (pats : List (List Char))
    (pre tail A : List Char) (hA : pre.map lowerChar = A)
    (hAl : A.map lowerChar = A)
    (hfails : ∀ i, i < A.length → ∀ p ∈ pats, stripFails p (A.drop i) = true) :
    ∀ i, i < pre.length → firstHit tryConv pats (pre.drop i ++ tail) = none := by
  intro i hi
  have hlen : pre.length = A.length := by
    rw [← hA, List.length_map]
  refine firstHit_conv_none (fun p hp => ?_)
  have hmap : (pre.drop i).map lowerChar = ((A.drop i)).map lowerChar := by
    rw [List.map_drop, List.map_drop, hA, hAl]
  rw [stripFails_congr p hmap]
  exact hfails i (by omega) p hp

/-- Claim C5 amended: for every recognized-link head — any case variant
`pre` of one of the eight scheme+host forms — followed by a remainder `tail`
in which neither host pattern occurs, `convertOne` (`convertToRxddit`)
rewrites the head to the literal lowercase `https://rxddit.com` (the
insecure scheme upgraded, the host case-normalized) and preserves `tail` —
path, query string, trailing slash, and path-segment case — byte-for-byte.
Without the no-embedded-occurrence condition on `tail` the claim fails (see
the counterexample). -/
theorem C5_convertOne_preserves_tail (pre tail : List Char)
    (hpre : pre.map lowerChar ∈ hostForms)
    (h1 : NoMatchAt conv1At tail) (h2 : NoMatchAt conv2At tail) :
    convertToRxddit (pre ++ tail) = rxHost ++ tail := by
  have hrx : NoMatchAt conv2At (rxHost ++ tail) := by
    refine noMatchAt_append (fun i hi => ?_) h2
    exact firstHit_conv_none_region conv2Pats rxHost tail rxHost (by decide)
      (by decide) (by decide) i hi
  have hrx1 : NoMatchAt conv1At (rxHost ++ tail) := by
    refine noMatchAt_append (fun i hi => ?_) h1
    exact firstHit_conv_none_region conv1Pats rxHost tail rxHost (by decide)
      (by decide) (by decide) i hi
  have finish1 : conv1At (pre ++ tail) = some (pre, tail) →
      convertToRxddit (pre ++ tail) = rxHost ++ tail := by
    intro hc1
    unfold convertToRxddit
    rw [replaceAll_match conv1At_consuming _ hc1,
      replaceAll_id_of_noMatch h1, replaceAll_id_of_noMatch hrx]
  have finish2 : NoMatchAt conv1At (pre ++ tail) →
      conv2At (pre ++ tail) = some (pre, tail) →
      convertToRxddit (pre ++ tail) = rxHost ++ tail := by
    intro hno1 hc2
    unfold convertToRxddit
    rw [replaceAll_id_of_noMatch hno1,
      replaceAll_match conv2At_consuming _ hc2, replaceAll_id_of_noMatch h2]
  unfold hostForms conv1Pats conv2Pats at hpre
  simp only [List.mem_append, List.mem_cons, List.not_mem_nil, or_false] at hpre
  rcases hpre with ((hA | hA | hA | hA) | (hA | hA | hA | hA))
  · refine finish1 ?_
    unfold conv1At
    exact firstHit_conv_exact [] "https://www.reddit.com".toList
      ["https://reddit.com".toList, "http://www.reddit.com".toList,
       "http://reddit.com".toList] pre tail _ hA (by decide) (by decide)
      (by decide)
  · refine finish1 ?_
    unfold conv1At
    exact firstHit_conv_exact ["https://www.reddit.com".toList]
      "https://reddit.com".toList
      ["http://www.reddit.com".toList, "http://reddit.com".toList]
      pre tail _ hA (by decide) (by decide) (by decide)
  · refine finish1 ?_
    unfold conv1At
    exact firstHit_conv_exact
      ["https://www.reddit.com".toList, "https://reddit.com".toList]
      "http://www.reddit.com".toList ["http://reddit.com".toList]
      pre tail _ hA (by decide) (by decide) (by decide)
  · refine finish1 ?_
    unfold conv1At
    exact firstHit_conv_exact
      ["https://www.reddit.com".toList, "https://reddit.com".toList,
       "http://www.reddit.com".toList]
      "http://reddit.com".toList [] pre tail _ hA (by decide) (by decide)
      (by decide)
  · refine finish2 ?_ ?_
    · refine noMatchAt_append (fun i hi => ?_) h1
      exact firstHit_conv_none_region conv1Pats pre tail _ hA (by decide)
        (by decide) i hi
    · unfold conv2At
      exact firstHit_conv_exact [] "https://old.reddit.com".toList
        ["https://new.reddit.com".toList, "http://old.reddit.com".toList,
         "http://new.reddit.com".toList] pre tail _ hA (by decide) (by decide)
        (by decide)
  · refine finish2 ?_ ?_
    · refine noMatchAt_append (fun i hi => ?_) h1
      exact firstHit_conv_none_region conv1Pats pre tail _ hA (by decide)
        (by decide) i hi
    · unfold conv2At
      exact firstHit_conv_exact ["https://old.reddit.com".toList]
        "https://new.reddit.com".toList
        ["http://old.reddit.com".toList, "http://new.reddit.com".toList]
        pre tail _ hA (by decide) (by decide) (by decide)
  · refine finish2 ?_ ?_
    · refine noMatchAt_append (fun i hi => ?_) h1
      exact firstHit_conv_none_region conv1Pats pre tail _ hA (by decide)
        (by decide) i hi
    · unfold conv2At
      exact firstHit_conv_exact
        ["https://old.reddit.com".toList, "https://new.reddit.com".toList]
        "http://old.reddit.com".toList ["http://new.reddit.com".toList]
        pre tail _ hA (by decide) (by decide) (by decide)
  · refine finish2 ?_ ?_
    · refine noMatchAt_append (fun i hi => ?_) h1
      exact firstHit_conv_none_region conv1Pats pre tail _ hA (by decide)
        (by decide) i hi
    · unfold conv2At
      exact firstHit_conv_exact
        ["https://old.reddit.com".toList, "https://new.reddit.com".toList,
         "http://old.reddit.com".toList]
        "http://new.reddit.com".toList [] pre tail _ hA (by decide)
        (by decide) (by decide)

/-- Witness for C5 amended: a mixed-case insecure-scheme head with a
case-bearing path, query and trailing slash. -/
theorem C5_convertOne_preserves_tail_witness :
    convertToRxddit ("HTTP://WWW.REDDIT.COM".toList
        ++ "/r/AskReddit?sort=new/".toList)
      = rxHost ++ "/r/AskReddit?sort=new/".toList :=
  C5_convertOne_preserves_tail "HTTP://WWW.REDDIT.COM".toList
    "/r/AskReddit?sort=new/".toList (by decide) (by decide) (by decide)

/-- A mismatch of the literal part inside the head also kills a detection
alternative, whatever follows. -/
theorem tryDet_none_of_fails {p a : List Char} (h : stripFails p a = true)
    (b : List Char) : tryDet p (a ++ b) = none := by
  unfold tryDet
  rw [stripCI_none_of_fails h b]

/-- A mismatch of every alternative inside the head kills the detection
pattern there, whatever follows. -/
theorem firstHit_det_none {pats : List (List Char)} {a b : List Char}
    (h : ∀ p ∈ pats, stripFails p a = true) :
    firstHit tryDet pats (a ++ b) = none := by
  induction pats with
  | nil => rfl
  | cons p ps ih =>
    simp only [firstHit, tryDet_none_of_fails (h p (by simp)) b]
    exact ih (fun q hq => h q (by simp [hq]))

/-- The first detection pattern never matches at a space. -/
theorem det1At_space (s : List Char) : det1At (' ' :: s) = none := by
  have h := @firstHit_det_none det1Pats [' '] s (by decide)
  simpa using h

/-- The second detection pattern never matches at a space. -/
theorem det2At_space (s : List Char) : det2At (' ' :: s) = none := by
  have h := @firstHit_det_none det2Pats [' '] s (by decide)
  simpa using h

/-- The `Set` dedup collapses a repeated entry. -/
theorem dedupKeepFirst_pair (x : List Char) : dedupKeepFirst [x, x] = [x] := by
  simp [dedupKeepFirst, dedupSeen]

/-- Replacement of the empty text. -/
theorem replaceAll_nil (m : List Char → Option (List Char × List Char))
    (f : List Char → List Char) : replaceAll m f [] = [] := rfl

/-- Claim C7: detection deduplicates but conversion does not.  For a text
made of a span `A`, a recognized link `L`, a space, and `L` again — where
the hypotheses say exactly that `L` is recognized by one pattern family as a
whole at both occurrences, that nothing matches inside `A`, and that the
other family matches nowhere — `detect` returns `L` once, while `convertAll`
rewrites both occurrences in place and leaves `A` and the separating space
byte-for-byte unchanged.  The first conjunct handles links of the
reddit.com/www family, the second those of the old/new family. -/
theorem C7_detect_dedups_convertAll_replaces_both (A L : List Char) :
    ((det1At (L ++ ' ' :: L) = some (L, ' ' :: L) →
      det1At L = some (L, []) →
      (∀ i, i < A.length → det1At (A.drop i ++ (L ++ ' ' :: L)) = none) →
      NoMatchAt det2At (A ++ (L ++ ' ' :: L)) →
      NoMatchAt det2At
        (A ++ (convertToRxddit L ++ ' ' :: convertToRxddit L)) →
      detectRedditLinks (A ++ (L ++ ' ' :: L)) = [L]
      ∧ convertMessageLinks (A ++ (L ++ ' ' :: L))
          = A ++ (convertToRxddit L ++ ' ' :: convertToRxddit L))
    ∧ (det2At (L ++ ' ' :: L) = some (L, ' ' :: L) →
      det2At L = some (L, []) →
      (∀ i, i < A.length → det2At (A.drop i ++ (L ++ ' ' :: L)) = none) →
      NoMatchAt det1At (A ++ (L ++ ' ' :: L)) →
      detectRedditLinks (A ++ (L ++ ' ' :: L)) = [L]
      ∧ convertMessageLinks (A ++ (L ++ ' ' :: L))
          = A ++ (convertToRxddit L ++ ' ' :: convertToRxddit L))) := by
  constructor
  · intro h1 h2 hA h3 h4
    have hscan1 : scanMatches det1At (A ++ (L ++ ' ' :: L)) = [L, L] := by
      rw [scanMatches_skip hA, scanMatches_match det1At_consuming h1,
        scanMatches_cons_none (det1At_space L),
        scanMatches_match det1At_consuming h2]
      rfl
    have hscan2 : scanMatches det2At (A ++ (L ++ ' ' :: L)) = [] :=
      scanMatches_nil_of_noMatch h3
    constructor
    · unfold detectRedditLinks
      rw [hscan1, hscan2, List.append_nil]
      exact dedupKeepFirst_pair L
    · unfold convertMessageLinks
      have hinner : replaceAll det1At convertToRxddit (A ++ (L ++ ' ' :: L))
          = A ++ (convertToRxddit L ++ ' ' :: convertToRxddit L) := by
        rw [replaceAll_skip hA, replaceAll_match det1At_consuming _ h1,
          replaceAll_cons_none (det1At_space L),
          replaceAll_match det1At_consuming _ h2, replaceAll_nil,
          List.append_nil]
      rw [hinner]
      exact replaceAll_id_of_noMatch h4
  · intro h1 h2 hA h3
    have hscan2 : scanMatches det2At (A ++ (L ++ ' ' :: L)) = [L, L] := by
      rw [scanMatches_skip hA, scanMatches_match det2At_consuming h1,
        scanMatches_cons_none (det2At_space L),
        scanMatches_match det2At_consuming h2]
      rfl
    have hscan1 : scanMatches det1At (A ++ (L ++ ' ' :: L)) = [] :=
      scanMatches_nil_of_noMatch h3
    constructor
    · unfold detectRedditLinks
      rw [hscan1, hscan2, List.nil_append]
      exact dedupKeepFirst_pair L
    · unfold convertMessageLinks
      rw [replaceAll_id_of_noMatch h3]
      rw [replaceAll_skip hA, replaceAll_match det2At_consuming _ h1,
        replaceAll_cons_none (det2At_space L),
        replaceAll_match det2At_consuming _ h2, replaceAll_nil,
        List.append_nil]

/-- Witness for C7: the spec's shape with span `"a: "` and both a
reddit.com link and an old.reddit.com link. -/
theorem C7_detect_dedups_convertAll_replaces_both_witness :
    (detectRedditLinks ("a: ".toList
        ++ ("https://reddit.com/r/test".toList
          ++ ' ' :: "https://reddit.com/r/test".toList))
      = ["https://reddit.com/r/test".toList]
    ∧ convertMessageLinks ("a: ".toList
        ++ ("https://reddit.com/r/test".toList
          ++ ' ' :: "https://reddit.com/r/test".toList))
      = "a: ".toList
        ++ (convertToRxddit "https://reddit.com/r/test".toList
          ++ ' ' :: convertToRxddit "https://reddit.com/r/test".toList))
    ∧ (detectRedditLinks ("a: ".toList
        ++ ("https://old.reddit.com/r/x".toList
          ++ ' ' :: "https://old.reddit.com/r/x".toList))
      = ["https://old.reddit.com/r/x".toList]
    ∧ convertMessageLinks ("a: ".toList
        ++ ("https://old.reddit.com/r/x".toList
          ++ ' ' :: "https://old.reddit.com/r/x".toList))
      = "a: ".toList
        ++ (convertToRxddit "https://old.reddit.com/r/x".toList
          ++ ' ' :: convertToRxddit "https://old.reddit.com/r/x".toList)) :=
  ⟨(C7_detect_dedups_convertAll_replaces_both "a: ".toList
      "https://reddit.com/r/test".toList).1 (by decide) (by decide)
      (by decide) (by decide) (by decide),
   (C7_detect_dedups_convertAll_replaces_both "a: ".toList
      "https://old.reddit.com/r/x".toList).2 (by decide) (by decide)
      (by decide) (by decide)⟩

end Rxddit
